import Mathlib

/-!
Shallow embedding of the DryFreight rate pipeline (`src/api/rates.js`):
the bulletin line parser, the region/vessel vocabulary resolver, the
page-level extractor, the scrape driver, and the read-side freshness
aggregation.  JavaScript strings are modeled as `List Char`; the handful
of JS string/regex operations the code uses are given explicit executable
models below, each annotated with the JS behavior it reproduces.
-/

namespace DryFreight

/- ═════════ JS string primitives (List Char models) ═════════ -/

/-- JS whitespace (`\s`, `String.prototype.trim`): ASCII whitespace,
NBSP, BOM and the Unicode space separators / line separators. -/
def jsWs (c : Char) : Bool :=
  c = ' ' || c = '\t' || c = '\n' || c = '\r' || c = '\x0b' || c = '\x0c' ||
  c = '\u00A0' || c = '\uFEFF' || c = '\u1680' ||
  ('\u2000' ≤ c && c ≤ '\u200A') || c = '\u2028' || c = '\u2029' ||
  c = '\u202F' || c = '\u205F' || c = '\u3000'

/-- Lowercasing a JS string; the repository's vocabulary is ASCII, and
`Char.toLower` performs the ASCII case mapping. -/
def lowerL (cs : List Char) : List Char := cs.map Char.toLower

def jsTrimStart (cs : List Char) : List Char := cs.dropWhile jsWs

def jsTrimEnd (cs : List Char) : List Char := (cs.reverse.dropWhile jsWs).reverse

/-- `String.prototype.trim`. -/
def jsTrim (cs : List Char) : List Char := jsTrimEnd (jsTrimStart cs)

/-- `cs.startsWith(pat)`. -/
def hasPrefixL : List Char → List Char → Bool
  | _, [] => true
  | [], _ :: _ => false
  | c :: cs, p :: ps => c = p && hasPrefixL cs ps

/-- `cs.indexOf(pat)`: index of the first occurrence, `none` for `-1`. -/
def firstIdxOf (pat : List Char) : List Char → Option Nat
  | [] => if pat = [] then some 0 else none
  | c :: cs =>
    if hasPrefixL (c :: cs) pat then some 0
    else (firstIdxOf pat cs).map (· + 1)

/-- `cs.includes(pat)`. -/
def containsL (cs pat : List Char) : Bool := (firstIdxOf pat cs).isSome

/-- `cs.lastIndexOf(pat)`: the largest index at which `pat` occurs. -/
def lastIdxOf (pat cs : List Char) : Option Nat :=
  ((List.range (cs.length + 1)).filter
    (fun i => hasPrefixL (cs.drop i) pat)).getLast?

/-- Given the text right after a `'('`, return the remainder after the
first `')'` provided no line terminator intervenes (regex `.` does not
match `\n`, `\r`, U+2028, U+2029), i.e. whether `\(.*?\)` can close. -/
def scanCloseParen : List Char → Option (List Char)
  | [] => none
  | c :: cs =>
    if c = ')' then some cs
    else if c = '\n' || c = '\r' || c = '\u2028' || c = '\u2029' then none
    else scanCloseParen cs

/-- Worker for `text.replace(/\s*\(.*?\)/g, '')`: scan left to right with
a reversed output accumulator; at each viable `'('` (one that `.*?` can
close) drop the whitespace run just emitted (the `\s*`) and resume after
the closing `')'`.  Fuel is `length + 1`: every recursive call consumes
at least one input character, so fuel never runs out. -/
def stripParensFuel : Nat → List Char → List Char → List Char
  | 0, out, _ => out.reverse
  | _ + 1, out, [] => out.reverse
  | fuel + 1, out, c :: cs =>
    if c = '(' then
      match scanCloseParen cs with
      | some rest => stripParensFuel fuel (out.dropWhile jsWs) rest
      | none => stripParensFuel fuel (c :: out) cs
    else stripParensFuel fuel (c :: out) cs

/-- `text.replace(/\s*\(.*?\)/g, '')`. -/
def stripParens (cs : List Char) : List Char :=
  stripParensFuel (cs.length + 1) [] cs

/-- Match `\s+` at the head: require one whitespace character, then
consume the maximal whitespace run (the greedy match; every continuation
in the source's regexes expects a non-whitespace next, so maximal-munch
is exact). -/
def stripWsPlus : List Char → Option (List Char)
  | [] => none
  | c :: cs => if jsWs c then some (cs.dropWhile jsWs) else none

/-- Case-insensitively match the (lowercase) literal `pat` at the head
and return the remainder. -/
def stripCI : List Char → List Char → Option (List Char)
  | [], cs => some cs
  | _ :: _, [] => none
  | p :: ps, c :: cs => if Char.toLower c = p then stripCI ps cs else none

/-- `html.split('\n')`. -/
def splitNl : List Char → List (List Char)
  | [] => [[]]
  | c :: cs =>
    if c = '\n' then [] :: splitNl cs
    else
      match splitNl cs with
      | l :: ls => (c :: l) :: ls
      | [] => [[c]]

/-- `parseInt(ds, 10)` on a string of decimal digits: `none` models `NaN`
(empty string).  The captured rate text contains only digits once commas
are removed, and any value the float representation would round is far
above the 200000 sanity ceiling, so `Nat` is exact where it matters. -/
def parseIntDigits (ds : List Char) : Option Nat :=
  if ds = [] then none
  else some (ds.foldl (fun a c => a * 10 + (c.toNat - 48)) 0)

/- ═════════ Freshness tiers (rates.js lines 16–25) ═════════ -/

def TIER1_DAYS : Int := 3
def TIER2_DAYS : Int := 14
def TIER3_DAYS : Int := 45

structure TierConfidence where
  tier : Nat
  confidence : Nat
deriving DecidableEq, Repr

def getTierAndConfidence (daysOld : Int) : TierConfidence :=
  if daysOld ≤ TIER1_DAYS then ⟨1, 95⟩
  else if daysOld ≤ TIER2_DAYS then ⟨2, 75⟩
  else if daysOld ≤ TIER3_DAYS then ⟨3, 50⟩
  else ⟨4, 30⟩

/- ═════════ Region vocabulary (rates.js lines 144–264) ═════════
The JS object literal has string keys, none integer-like and none
duplicated, so `Object.entries` iterates them in this source order. -/

def REGION_MAP : List (String × String) := [
  ("continent", "N.EUROPE"), ("n.europe", "N.EUROPE"),
  ("north europe", "N.EUROPE"), ("northern europe", "N.EUROPE"),
  ("arag", "N.EUROPE"), ("uk continent", "N.EUROPE"),
  ("germany", "N.EUROPE"), ("uk", "N.EUROPE"),
  ("netherlands", "N.EUROPE"), ("belgium", "N.EUROPE"),
  ("france", "N.EUROPE"),
  ("spain", "W.MED"), ("portugal", "W.MED"), ("morocco", "W.MED"),
  ("algeria", "W.MED"), ("w.med", "W.MED"), ("west med", "W.MED"),
  ("west mediterranean", "W.MED"), ("east mediterranean", "E.MED"),
  ("e.med", "E.MED"), ("emed", "E.MED"), ("east med", "E.MED"),
  ("egypt med", "E.MED"), ("egypt", "E.MED"), ("turkey", "E.MED"),
  ("turkiye", "E.MED"), ("turkiye med", "E.MED"), ("greece", "E.MED"),
  ("italy", "W.MED"),
  ("black sea", "BLACK SEA"), ("ukraine", "BLACK SEA"),
  ("romania", "BLACK SEA"),
  ("us gulf", "US GULF"), ("usg", "US GULF"),
  ("us east coast", "US EAST COAST"), ("usec", "US EAST COAST"),
  ("east coast south america", "E.S.AMERICA"), ("ecsa", "E.S.AMERICA"),
  ("brazil", "E.S.AMERICA"), ("argentina", "E.S.AMERICA"),
  ("uruguay", "E.S.AMERICA"), ("sw passage", "E.S.AMERICA"),
  ("north coast south america", "N.S.AMERICA"), ("ncsa", "N.S.AMERICA"),
  ("colombia", "N.S.AMERICA"), ("venezuela", "N.S.AMERICA"),
  ("dominican republic", "CARIBBEAN"), ("caribbean", "CARIBBEAN"),
  ("mexico east coast", "MEXICO"), ("mexico", "MEXICO"),
  ("peru", "W.S.AMERICA"), ("ecuador", "W.S.AMERICA"),
  ("west coast south america", "W.S.AMERICA"), ("wcsa", "W.S.AMERICA"),
  ("west africa", "W.AFRICA"), ("wafr", "W.AFRICA"), ("waf", "W.AFRICA"),
  ("w.africa", "W.AFRICA"), ("nigeria", "W.AFRICA"),
  ("gabon", "W.AFRICA"), ("ghana", "W.AFRICA"),
  ("south africa", "S.AFRICA"), ("saf", "S.AFRICA"),
  ("s.africa", "S.AFRICA"), ("east africa", "E.AFRICA"),
  ("kenya", "E.AFRICA"), ("mozambique", "E.AFRICA"),
  ("middle east", "MIDDLE EAST"), ("uae", "MIDDLE EAST"),
  ("qatar", "MIDDLE EAST"), ("oman", "MIDDLE EAST"),
  ("saudi arabia", "MIDDLE EAST"), ("iraq", "MIDDLE EAST"),
  ("iran", "MIDDLE EAST"), ("red sea", "RED SEA"),
  ("west coast india", "W.INDIA"), ("wci", "W.INDIA"),
  ("w.india", "W.INDIA"), ("india", "W.INDIA"), ("pakistan", "W.INDIA"),
  ("east coast india", "E.INDIA"), ("eci", "E.INDIA"),
  ("e.india", "E.INDIA"), ("bangladesh", "E.INDIA"),
  ("south india", "S.INDIA"), ("s.india", "S.INDIA"),
  ("sri lanka", "S.INDIA"),
  ("china", "CHINA"), ("south china", "CHINA"), ("north china", "CHINA"),
  ("hong kong", "CHINA"), ("taiwan", "N.ASIA"), ("japan", "N.ASIA"),
  ("japan-korea", "N.ASIA"), ("south korea", "N.ASIA"),
  ("korea", "N.ASIA"), ("north pacific", "N.ASIA"), ("nopac", "N.ASIA"),
  ("n.asia", "N.ASIA"), ("far east", "CHINA"),
  ("indonesia", "SE.ASIA"), ("malaysia", "SE.ASIA"),
  ("thailand", "SE.ASIA"), ("vietnam", "SE.ASIA"),
  ("cambodia", "SE.ASIA"), ("philippines", "SE.ASIA"),
  ("south east asia", "SE.ASIA"), ("southeast asia", "SE.ASIA"),
  ("se asia", "SE.ASIA"), ("sea", "SE.ASIA"),
  ("australia", "AUSTRALIA")]

/-- `REGION_MAP` is a plain object literal, so the property read
`REGION_MAP[t]` at rates.js line 274 also reaches the properties it
inherits from `Object.prototype`.  These are their names; each holds a
truthy value (a built-in function, or `Object.prototype` itself for
`__proto__`).  The lookup's argument is always lowercased text, so only
the all-lowercase names (`constructor`, `__proto__`) are reachable, but
all are modeled.  None is an own key of `REGION_MAP`, and
`Object.entries` (the containment loop) never sees them. -/
def OBJECT_PROTOTYPE_PROPS : List String :=
  ["constructor", "hasOwnProperty", "isPrototypeOf", "propertyIsEnumerable",
   "toLocaleString", "toString", "valueOf", "__defineGetter__",
   "__defineSetter__", "__lookupGetter__", "__lookupSetter__", "__proto__"]

/-- The object property read `REGION_MAP[t]` with its truthiness check
(rates.js lines 273–274): an own key yields its region code; otherwise a
name inherited from `Object.prototype` yields that inherited value —
truthy, hence returned, but not a region code.  The inherited value (a
built-in function or object) is modeled as the tagged string
"[prototype <name>]"; nothing below depends on more than its being
`some` and distinct from every table code.  Any other name yields
`undefined`, which is falsy (`none`). -/
def regionMapGet (t : List Char) : Option String :=
  match REGION_MAP.find? (fun p => p.1.data == t) with
  | some p => some p.2
  | none =>
    match OBJECT_PROTOTYPE_PROPS.find? (fun n => n.data == t) with
    | some n => some ("[prototype " ++ n ++ "]")
    | none => none

/-- `mapRegion` (rates.js lines 267–282): falsy check on the raw text,
lowercase, strip parentheticals, trim; then the object lookup
`if (REGION_MAP[t]) return REGION_MAP[t]` (own keys and inherited
`Object.prototype` properties alike), then the first containment match
in table order over `Object.entries` (own entries only), else null. -/
def mapRegion (text : List Char) : Option String :=
  if text = [] then none
  else
    let t := jsTrim (stripParens (lowerL text))
    match regionMapGet t with
    | some v => some v
    | none =>
      match REGION_MAP.find? (fun p => containsL t p.1.data) with
      | some p => some p.2
      | none => none

def mapRegionStr (s : String) : Option String := mapRegion s.data

/-- `mapVessel` (rates.js lines 285–293). -/
def mapVessel (text : List Char) : Option String :=
  let t := lowerL text
  if containsL t "capesize".data || containsL t "cape".data then some "CAPESIZE"
  else if containsL t "panamax".data then some "PANAMAX"
  else if containsL t "ultramax".data then some "ULTRAMAX"
  else if containsL t "supramax".data then some "SUPRAMAX"
  else if containsL t "handy".data then some "HANDY"
  else none

/- ═════════ Line parser (rates.js lines 300–350) ═════════ -/

structure RateRecord where
  vesselType : String
  originText : String
  destinationText : String
  originRegion : String
  destinationRegion : String
  rate : Nat
  rawLine : String
deriving DecidableEq, Repr

/-- A bullet-marker glyph of the regex class `[•·\-\*]`. -/
def isGlyph (c : Char) : Bool := c = '•' || c = '·' || c = '-' || c = '*'

/-- Whether the first character is a bullet-marker glyph. -/
def headGlyph : List Char → Bool
  | [] => false
  | c :: _ => isGlyph c

/-- `line.replace(/^[•·\-\*]\s*/, '')`: drop one leading glyph and the
whitespace run after it. -/
def stripBullet : List Char → List Char
  | [] => []
  | c :: cs => if isGlyph c then cs.dropWhile jsWs else c :: cs

/-- rates.js line 302: `line.replace(/^[•·\-\*]\s*/, '').trim()`. -/
def cleanLine (l : List Char) : List Char := jsTrim (stripBullet l)

/-- Match `fixed\s+around\s+\$([0-9,]+)` (flag `i`) at the head and
return the captured `[0-9,]+` text.  The greedy `\s+` / `[0-9,]+` pieces
are maximal-munch because their continuations are non-whitespace /
absent. -/
def matchRateAt (cs : List Char) : Option (List Char) :=
  match stripCI "fixed".data cs with
  | none => none
  | some r1 =>
    match stripWsPlus r1 with
    | none => none
    | some r2 =>
      match stripCI "around".data r2 with
      | none => none
      | some r3 =>
        match stripWsPlus r3 with
        | none => none
        | some r4 =>
          match r4 with
          | '$' :: r5 =>
            let ds := r5.takeWhile (fun c => c.isDigit || c = ',')
            if ds = [] then none else some ds
          | _ => none

/-- `clean.match(/fixed\s+around\s+\$([0-9,]+)/i)`: leftmost match,
returning the capture group. -/
def firstRateMatch : List Char → Option (List Char)
  | [] => none
  | c :: cs =>
    match matchRateAt (c :: cs) with
    | some ds => some ds
    | none => firstRateMatch cs

/-- Model of `beforeFixed.replace(/^\S+\s+open\s+/i, '')` (line 320):
`\S+` is the maximal leading non-whitespace run (any shorter split fails
the following `\s+`), then whitespace, then `open` case-insensitively,
then whitespace; if the pattern does not match, the text is unchanged. -/
def stripOpenTok (cs : List Char) : List Char :=
  match (do
    let tok := cs.takeWhile (fun c => !(jsWs c))
    if tok.isEmpty then none else
    let r1 ← stripWsPlus (cs.drop tok.length)
    let r2 ← stripCI "open".data r1
    stripWsPlus r2 : Option (List Char)) with
  | some rest => rest
  | none => cs

/-- `parseLine`'s body after the bullet strip (rates.js lines 304–349).
Notes tying the model to JS semantics:
* line 312 uses the case-sensitive `clean.indexOf('fixed around')`; when
  it returns `-1`, `clean.substring(0, -1)` is the empty string;
* `beforeFixed` is trimmed, so `beforeFixed.split(/\s+/)[0]` is its
  maximal leading non-whitespace run (empty for the empty string);
* line 327 applies `.trim()` and then `.replace(/\s*$/, '')`. -/
def parseClean (clean : List Char) : Option RateRecord :=
  match firstRateMatch clean with
  | none => none
  | some ds =>
    match parseIntDigits (ds.filter (fun c => c ≠ ',')) with
    | none => none
    | some rate =>
      if rate = 0 ∨ rate < 1000 ∨ rate > 200000 then none
      else
        let beforeFixed := jsTrim (match firstIdxOf "fixed around".data clean with
          | none => []
          | some i => clean.take i)
        let firstWord := beforeFixed.takeWhile (fun c => !(jsWs c))
        match mapVessel firstWord with
        | none => none
        | some vesselType =>
          let afterOpen := jsTrim (stripOpenTok beforeFixed)
          match lastIdxOf " to ".data afterOpen with
          | none => none
          | some toIdx =>
            let originVia := jsTrim (afterOpen.take toIdx)
            let destinationText := jsTrimEnd (jsTrim (afterOpen.drop (toIdx + 4)))
            let originText := match lastIdxOf " via ".data originVia with
              | none => originVia
              | some viaIdx => jsTrim (originVia.take viaIdx)
            match mapRegion originText, mapRegion destinationText with
            | some originRegion, some destinationRegion =>
              some { vesselType := vesselType,
                     originText := String.mk originText,
                     destinationText := String.mk destinationText,
                     originRegion := originRegion,
                     destinationRegion := destinationRegion,
                     rate := rate,
                     rawLine := String.mk clean }
            | _, _ => none

def parseLineL (l : List Char) : Option RateRecord := parseClean (cleanLine l)

/-- `parseLine` (rates.js lines 300–350). -/
def parseLine (s : String) : Option RateRecord := parseLineL s.data

/- ═════════ Page extractor (rates.js lines 353–376) ═════════ -/

/-- The dedup key template of rates.js line 368. -/
def recKey (r : RateRecord) : String :=
  r.vesselType ++ "|" ++ r.originRegion ++ "|" ++ r.destinationRegion

/-- The per-line pipeline of the loop body (rates.js lines 360–365):
trim, require a leading `'•'` or `'·'`, require the lowercased line to
contain `"fixed around"`, then `parseLine`; `none` models `continue`. -/
def surviveLine (line : List Char) : Option RateRecord :=
  let t := jsTrim line
  if !(hasPrefixL t ['•'] || hasPrefixL t ['·']) then none
  else if !(containsL (lowerL t) "fixed around".data) then none
  else parseLineL t

/-- The records surviving filter and parse, in page order, before the
`seen`-set dedup. -/
def survivors (html : List Char) : List RateRecord :=
  (splitNl html).filterMap surviveLine

/-- The loop of rates.js lines 359–373, carrying the `seen` key set. -/
def parseRatesAux (seen : List String) : List (List Char) → List RateRecord
  | [] => []
  | line :: ls =>
    let t := jsTrim line
    if !(hasPrefixL t ['•'] || hasPrefixL t ['·']) then parseRatesAux seen ls
    else if !(containsL (lowerL t) "fixed around".data) then parseRatesAux seen ls
    else
      match parseLineL t with
      | none => parseRatesAux seen ls
      | some p =>
        if recKey p ∈ seen then parseRatesAux seen ls
        else p :: parseRatesAux (recKey p :: seen) ls

def parseRatesL (html : List Char) : List RateRecord :=
  parseRatesAux [] (splitNl html)

/-- `parseRates` (rates.js lines 353–376). -/
def parseRates (html : String) : List RateRecord := parseRatesL html.data

/- ═════════ Scrape driver (rates.js lines 398–427) ═════════ -/

/-- A row as inserted into the `scraped_rates` table (rates.js
lines 412–421). -/
structure ScrapedRow where
  scraped_date : String
  vessel_type : String
  origin_text : String
  destination_text : String
  origin_region : String
  destination_region : String
  rate : Nat
  raw_line : String
deriving DecidableEq, Repr

/-- The scrape pipeline after a successful page fetch (rates.js
lines 406–426): parse, fail hard when nothing was extracted (line 408),
otherwise tag rows with today's date.  `Except.ok` carries exactly the
rows handed to `insertToSupabase`; the error branch never reaches the
insert call. -/
def scrapeRows (today : String) (html : String) : Except String (List ScrapedRow) :=
  let parsed := parseRates html
  if parsed.length = 0 then
    Except.error "No rates found — page structure may have changed"
  else
    Except.ok (parsed.map fun r =>
      { scraped_date := today,
        vessel_type := r.vesselType,
        origin_text := r.originText,
        destination_text := r.destinationText,
        origin_region := r.originRegion,
        destination_region := r.destinationRegion,
        rate := r.rate,
        raw_line := r.rawLine })

/- ═════════ Read-side aggregation (rates.js lines 78–106) ═════════ -/

/-- A row as returned by the storage range query.  `scraped_date` is a
calendar date modeled as whole days: the stored dates are `YYYY-MM-DD`
strings that `new Date(..)` parses to midnight UTC, so the millisecond
difference divided by 86400000 is an exact integer and `Math.round` is
the identity on it. -/
structure DbRow where
  vessel_type : String
  origin_region : String
  destination_region : String
  origin_text : String
  destination_text : String
  rate : Nat
  scraped_date : Int
  raw_line : String
deriving DecidableEq, Repr

/-- The dedup key template of rates.js line 81. -/
def rowKey (r : DbRow) : String :=
  r.vessel_type ++ "|" ++ r.origin_region ++ "|" ++ r.destination_region

/-- An element of the handler's `result` array (rates.js lines 93–105). -/
structure AggregatedRate where
  vesselType : String
  originRegion : String
  destinationRegion : String
  originText : String
  destinationText : String
  rate : Nat
  scrapedDate : Int
  daysOld : Int
  tier : Nat
  confidence : Nat
  rawLine : String
deriving DecidableEq, Repr

def aggKey (a : AggregatedRate) : String :=
  a.vesselType ++ "|" ++ a.originRegion ++ "|" ++ a.destinationRegion

/-- rates.js lines 89–105: age the row against today and score it. -/
def mkAgg (todayD : Int) (r : DbRow) : AggregatedRate :=
  let daysOld : Int := todayD - r.scraped_date
  let tc := getTierAndConfidence daysOld
  { vesselType := r.vessel_type,
    originRegion := r.origin_region,
    destinationRegion := r.destination_region,
    originText := r.origin_text,
    destinationText := r.destination_text,
    rate := r.rate,
    scrapedDate := r.scraped_date,
    daysOld := daysOld,
    tier := tc.tier,
    confidence := tc.confidence,
    rawLine := r.raw_line }

/-- Keep the first element per key, in first-occurrence order: the
`Map`/`Set` "insert if absent, iterate in insertion order" pattern used
both by the handler's `best` map (rates.js lines 79–83) and by
`parseRates`' `seen` set (lines 367–372). -/
def dedupFirstBy {α : Type} (key : α → String) : List String → List α → List α
  | _, [] => []
  | seen, x :: xs =>
    if key x ∈ seen then dedupFirstBy key seen xs
    else x :: dedupFirstBy key (key x :: seen) xs

/-- The handler's dedup-and-score stage (rates.js lines 78–106): keep
the first row per key — under the storage query's descending date order,
the most recent — then age and score each kept row.  The final
presentation sort (lines 108–111, a locale-collation reordering) is a
permutation and is not modeled; the claims proved below are about key
multiplicity and membership, which a permutation preserves. -/
def aggregateRates (todayD : Int) (rows : List DbRow) : List AggregatedRate :=
  (dedupFirstBy rowKey [] rows).map (mkAgg todayD)

/-- The order the storage query guarantees (`order=scraped_date.desc`,
rates.js line 45): every later row is dated no later than every earlier
row. -/
def sortedDesc (rows : List DbRow) : Prop :=
  rows.Pairwise (fun a b => b.scraped_date ≤ a.scraped_date)

instance (rows : List DbRow) : Decidable (sortedDesc rows) :=
  inferInstanceAs (Decidable (rows.Pairwise _))

/-- A concrete recent row (scraped on day 100) used to instantiate the
aggregation theorem. -/
def rowRecent : DbRow :=
  { vessel_type := "CAPESIZE", origin_region := "N.EUROPE",
    destination_region := "CHINA", origin_text := "Continent",
    destination_text := "China", rate := 20000, scraped_date := 100,
    raw_line := "Capesize open Continent to China fixed around $20,000" }

/-- The same key scraped ten days earlier. -/
def rowStale : DbRow :=
  { vessel_type := "CAPESIZE", origin_region := "N.EUROPE",
    destination_region := "CHINA", origin_text := "Continent",
    destination_text := "China", rate := 18000, scraped_date := 90,
    raw_line := "Capesize open Continent to China fixed around $18,000" }

/- ═════════ Spec-side region resolution (for claim C5) ═════════ -/

/-- Modelled from the spec's words (§4.1): normalize the input
(lowercase, strip parenthetical suffixes, trim), then attempt an exact
match against the alias table, then return the first canonical code in
table order whose alias occurs as a substring of the normalized input,
else null.  To be compared with the source-derived `mapRegion`. -/
def regionResolutionSpec (s : String) : Option String :=
  let t := jsTrim (stripParens (lowerL s.data))
  match REGION_MAP.find? (fun p => p.1.data == t) with
  | some p => some p.2
  | none =>
    match REGION_MAP.find? (fun p => containsL t p.1.data) with
    | some p => some p.2
    | none => none

/- ═════════ Helper lemmas ═════════ -/

theorem suffixDropWhile {α : Type} (p : α → Bool) :
    ∀ x : List α, ∃ s, s ++ x.dropWhile p = x := by
  intro x
  induction x with
  | nil => exact ⟨[], rfl⟩
  | cons c cs ih =>
    by_cases hc : p c = true
    · obtain ⟨s, hs⟩ := ih
      exact ⟨c :: s, by simp [List.dropWhile_cons, hc, hs]⟩
    · exact ⟨[], by simp [List.dropWhile_cons, hc]⟩

theorem headDropWhile {α : Type} (p : α → Bool) :
    ∀ (x : List α) c cs, x.dropWhile p = c :: cs → p c = false := by
  intro x
  induction x with
  | nil => intro c cs h; simp [List.dropWhile] at h
  | cons a as ih =>
    intro c cs h
    by_cases ha : p a = true
    · exact ih c cs (by simpa [List.dropWhile_cons, ha] using h)
    · rw [List.dropWhile_cons, if_neg (by simp [ha])] at h
      cases h
      simpa using ha

theorem dropWhileIdem {α : Type} (p : α → Bool) (x : List α) :
    (x.dropWhile p).dropWhile p = x.dropWhile p := by
  cases hx : x.dropWhile p with
  | nil => rfl
  | cons c cs =>
    rw [List.dropWhile_cons, if_neg]
    simp [headDropWhile p x c cs hx]

theorem jsTrimEndIdem (y : List Char) : jsTrimEnd (jsTrimEnd y) = jsTrimEnd y := by
  unfold jsTrimEnd
  rw [List.reverse_reverse, dropWhileIdem]

theorem jsTrimStartTrimEnd (x : List Char) :
    jsTrimStart (jsTrimEnd (jsTrimStart x)) = jsTrimEnd (jsTrimStart x) := by
  cases hz : jsTrimStart x with
  | nil => simp [jsTrimEnd, jsTrimStart]
  | cons c cs =>
    have hc : jsWs c = false := headDropWhile jsWs x c cs hz
    obtain ⟨s, hs⟩ := suffixDropWhile jsWs (c :: cs).reverse
    have hpre : jsTrimEnd (c :: cs) ++ s.reverse = c :: cs := by
      have h2 := congrArg List.reverse hs
      simpa [jsTrimEnd, List.reverse_append] using h2
    cases hte : jsTrimEnd (c :: cs) with
    | nil => simp [jsTrimStart]
    | cons d ds =>
      rw [hte] at hpre
      have hd : d = c := by
        have h3 := congrArg List.head? hpre
        simpa using h3
      subst hd
      simp [jsTrimStart, List.dropWhile_cons, hc]

theorem jsTrimIdem (x : List Char) : jsTrim (jsTrim x) = jsTrim x := by
  show jsTrimEnd (jsTrimStart (jsTrimEnd (jsTrimStart x))) = jsTrimEnd (jsTrimStart x)
  rw [jsTrimStartTrimEnd, jsTrimEndIdem]

theorem stripBulletOfNotGlyph {l : List Char} (h : headGlyph l = false) :
    stripBullet l = l := by
  cases l with
  | nil => rfl
  | cons c cs =>
    simp only [headGlyph] at h
    simp [stripBullet, h]

/-- Any successfully parsed record's `rawLine` is the cleaned line the
parser worked on. -/
theorem parseCleanRawLine {clean : List Char} {r : RateRecord}
    (h : parseClean clean = some r) : r.rawLine = String.mk clean := by
  simp only [parseClean] at h
  repeat' split at h
  all_goals first | exact Option.noConfusion h | (cases h; rfl)

/-- Any successfully parsed record carries a rate inside the sanity
bound enforced at rates.js line 309. -/
theorem parseCleanRateBounds {clean : List Char} {r : RateRecord}
    (h : parseClean clean = some r) : 1000 ≤ r.rate ∧ r.rate ≤ 200000 := by
  simp only [parseClean] at h
  repeat' split at h
  all_goals first | exact Option.noConfusion h | (cases h; simp only []; omega)

/-- `cleanLine` is stable on outputs that do not start with a bullet
glyph. -/
theorem cleanLineStable {l : List Char} (hg : headGlyph (cleanLine l) = false) :
    cleanLine (cleanLine l) = cleanLine l := by
  show jsTrim (stripBullet (cleanLine l)) = cleanLine l
  rw [stripBulletOfNotGlyph hg]
  show jsTrim (jsTrim (stripBullet l)) = jsTrim (stripBullet l)
  exact jsTrimIdem _

/- ═════════ Claim theorems ═════════ -/

/-- C1: the rate phrase is matched case-insensitively by the rate regex,
but the descriptor split at rates.js line 312 uses the case-sensitive
`indexOf('fixed around')`; a line spelling the phrase as "Fixed Around"
or "FIXED AROUND" therefore parses to null instead of the same record
the all-lowercase phrase yields.  This theorem exhibits the divergence
the claim's property fails on. -/
theorem claim_C1_fixed_around_case :
    parseLine "• Ultramax open Continent to China fixed around $17,500" =
      some { vesselType := "ULTRAMAX", originText := "Continent",
             destinationText := "China", originRegion := "N.EUROPE",
             destinationRegion := "CHINA", rate := 17500,
             rawLine := "Ultramax open Continent to China fixed around $17,500" } ∧
    parseLine "• Ultramax open Continent to China Fixed Around $17,500" = none ∧
    parseLine "• Ultramax open Continent to China FIXED AROUND $17,500" = none := by
  refine ⟨by decide, by decide, by decide⟩

/-- C4: the documented via-route line parses to SUPRAMAX, origin
W.AFRICA (resolved from the text before the last " via ", with the
parenthetical stripped during resolution), destination CHINA, rate
20500. -/
theorem claim_C4_via_route :
    parseLine "Supramax open West Africa (WAFR) via ECSA to China fixed around $20,500" =
      some { vesselType := "SUPRAMAX", originText := "West Africa (WAFR)",
             destinationText := "China", originRegion := "W.AFRICA",
             destinationRegion := "CHINA", rate := 20500,
             rawLine := "Supramax open West Africa (WAFR) via ECSA to China fixed around $20,500" } := by
  decide

/-- When the looked-up text is not an inherited `Object.prototype`
property name, the object read degenerates to the own-key table
lookup. -/
theorem regionMapGetOfNotProto {t : List Char}
    (h : OBJECT_PROTOTYPE_PROPS.find? (fun n => n.data == t) = none) :
    regionMapGet t = (match REGION_MAP.find? (fun p => p.1.data == t) with
      | some p => some p.2
      | none => none) := by
  unfold regionMapGet
  cases REGION_MAP.find? (fun p => p.1.data == t) with
  | some p => rfl
  | none => rw [h]

/-- C5 fails as stated: for the input "Constructor" the normalized text
is "constructor", which matches no alias exactly and contains no alias,
so the claimed algorithm returns null — but the program's object lookup
hits the inherited `Object.prototype.constructor`, a truthy value, and
returns it. -/
theorem claim_C5_region_resolution_counterexample :
    mapRegionStr "Constructor" = some "[prototype constructor]" ∧
    regionResolutionSpec "Constructor" = none ∧
    mapRegionStr "Constructor" ≠ regionResolutionSpec "Constructor" :=
  ⟨by decide, by decide, by decide⟩

/-- C5 (amended): on every input whose normalized text (lowercase,
parentheticals stripped, trimmed) is not an inherited `Object.prototype`
property name, region resolution is exactly the claimed procedure —
exact alias match, else first alias in table order occurring as a
substring, else null; on those property names the object lookup instead
returns the inherited truthy non-code value.  "USG", "US Gulf",
"us gulf" all resolve to US GULF. -/
theorem claim_C5_region_resolution :
    (∀ s : String,
        jsTrim (stripParens (lowerL s.data)) ∉
          OBJECT_PROTOTYPE_PROPS.map String.data →
        mapRegionStr s = regionResolutionSpec s) ∧
    mapRegionStr "USG" = some "US GULF" ∧
    mapRegionStr "US Gulf" = some "US GULF" ∧
    mapRegionStr "us gulf" = some "US GULF" := by
  refine ⟨fun s hs => ?_, by decide, by decide, by decide⟩
  have hf : OBJECT_PROTOTYPE_PROPS.find?
      (fun n => n.data == jsTrim (stripParens (lowerL s.data))) = none := by
    rw [List.find?_eq_none]
    intro n hn hbeq
    exact hs (List.mem_map.mpr ⟨n, hn, eq_of_beq hbeq⟩)
  by_cases hnil : s.data = []
  · simp only [mapRegionStr, mapRegion, regionResolutionSpec, hnil]
    decide
  · unfold mapRegionStr mapRegion regionResolutionSpec
    rw [if_neg hnil]
    simp only [regionMapGetOfNotProto hf]
    cases REGION_MAP.find? (fun p => p.1.data == jsTrim (stripParens (lowerL s.data))) with
    | some p => rfl
    | none => rfl

/-- Witness for the amended C5 at a concrete alias. -/
theorem claim_C5_region_resolution_witness :
    jsTrim (stripParens (lowerL "US Gulf".data)) ∉
      OBJECT_PROTOTYPE_PROPS.map String.data ∧
    mapRegionStr "US Gulf" = regionResolutionSpec "US Gulf" :=
  ⟨by decide, claim_C5_region_resolution.1 "US Gulf" (by decide)⟩

/-- C6: the freshness step function at its boundaries: 3 days is still
tier 1 / confidence 95, 4 days is tier 2 / 75, 45 days is still
tier 3 / 50, and 46 days is tier 4 / 30. -/
theorem claim_C6_tier_boundaries :
    getTierAndConfidence 3 = ⟨1, 95⟩ ∧ getTierAndConfidence 4 = ⟨2, 75⟩ ∧
    getTierAndConfidence 45 = ⟨3, 50⟩ ∧ getTierAndConfidence 46 = ⟨4, 30⟩ := by
  decide

/-- C8 fails as stated: a line opening with two bullet glyphs parses to
a record whose `rawLine` still starts with a glyph, and re-parsing that
`rawLine` strips the glyph, producing a record with a different
`rawLine`. -/
theorem claim_C8_idem_counterexample :
    parseLine "••Ultramax open Continent to China fixed around $17,500" =
      some { vesselType := "ULTRAMAX", originText := "Continent",
             destinationText := "China", originRegion := "N.EUROPE",
             destinationRegion := "CHINA", rate := 17500,
             rawLine := "•Ultramax open Continent to China fixed around $17,500" } ∧
    parseLine "•Ultramax open Continent to China fixed around $17,500" ≠
      some { vesselType := "ULTRAMAX", originText := "Continent",
             destinationText := "China", originRegion := "N.EUROPE",
             destinationRegion := "CHINA", rate := 17500,
             rawLine := "•Ultramax open Continent to China fixed around $17,500" } := by
  refine ⟨by decide, by decide⟩

/-- C8 (amended): parseLine is idempotent on its own output provided the
produced `rawLine` does not itself begin with a bullet/dash glyph
(`•`, `·`, `-`, `*`); re-parsing then yields the very same record, every
field included. -/
theorem claim_C8_idempotent_unless_glyph (l : String) (r : RateRecord)
    (h : parseLine l = some r) (hg : headGlyph r.rawLine.data = false) :
    parseLine r.rawLine = some r := by
  have h' : parseClean (cleanLine l.data) = some r := h
  have hr : r.rawLine = String.mk (cleanLine l.data) := parseCleanRawLine h'
  have hdata : r.rawLine.data = cleanLine l.data := by rw [hr]
  rw [hdata] at hg
  show parseClean (cleanLine r.rawLine.data) = some r
  rw [hdata, cleanLineStable hg]
  exact h'

/-- Witness for the amended C8 at a concrete bulletin line. -/
theorem claim_C8_idempotent_unless_glyph_witness :
    parseLine "• Ultramax open Continent to China fixed around $17,500" =
      some { vesselType := "ULTRAMAX", originText := "Continent",
             destinationText := "China", originRegion := "N.EUROPE",
             destinationRegion := "CHINA", rate := 17500,
             rawLine := "Ultramax open Continent to China fixed around $17,500" } ∧
    parseLine "Ultramax open Continent to China fixed around $17,500" =
      some { vesselType := "ULTRAMAX", originText := "Continent",
             destinationText := "China", originRegion := "N.EUROPE",
             destinationRegion := "CHINA", rate := 17500,
             rawLine := "Ultramax open Continent to China fixed around $17,500" } :=
  ⟨by decide,
   claim_C8_idempotent_unless_glyph
     "• Ultramax open Continent to China fixed around $17,500"
     { vesselType := "ULTRAMAX", originText := "Continent",
       destinationText := "China", originRegion := "N.EUROPE",
       destinationRegion := "CHINA", rate := 17500,
       rawLine := "Ultramax open Continent to China fixed around $17,500" }
     (by decide) (by decide)⟩

/-- C3: when zero rate records survive extraction from a fetched page,
the scrape run fails with the hard "page structure" error and never
reaches the storage insert (no `ok` row list exists). -/
theorem claim_C3_empty_extraction_fails (html today : String)
    (h : parseRates html = []) :
    scrapeRows today html =
      Except.error "No rates found — page structure may have changed" ∧
    ∀ rows : List ScrapedRow, scrapeRows today html ≠ Except.ok rows := by
  have herr : scrapeRows today html =
      Except.error "No rates found — page structure may have changed" := by
    unfold scrapeRows
    rw [h]
    rfl
  exact ⟨herr, fun rows hk => by rw [herr] at hk; exact Except.noConfusion hk⟩

/-- Witness for C3 at a concrete page with no bullet rate lines. -/
theorem claim_C3_empty_extraction_fails_witness :
    parseRates "This page has no bullet rate lines today" = [] ∧
    scrapeRows "2026-02-01" "This page has no bullet rate lines today" =
      Except.error "No rates found — page structure may have changed" :=
  ⟨by decide,
   (claim_C3_empty_extraction_fails "This page has no bullet rate lines today"
     "2026-02-01" (by decide)).1⟩

/-- C7: every record parseLine produces has its rate inside the sanity
bound [1000, 200000]; a line carrying $500 or $250,000 is rejected with
null, while the boundary values $1,000 and $200,000 are accepted. -/
theorem claim_C7_rate_bounds :
    (∀ (l : String) (r : RateRecord), parseLine l = some r →
        1000 ≤ r.rate ∧ r.rate ≤ 200000) ∧
    parseLine "• Ultramax open Continent to China fixed around $500" = none ∧
    parseLine "• Ultramax open Continent to China fixed around $250,000" = none ∧
    (parseLine "• Ultramax open Continent to China fixed around $1,000").map
      RateRecord.rate = some 1000 ∧
    (parseLine "• Ultramax open Continent to China fixed around $200,000").map
      RateRecord.rate = some 200000 := by
  refine ⟨fun l r h => ?_, by decide, by decide, by decide, by decide⟩
  exact @parseCleanRateBounds (cleanLine l.data) r h

/-- Witness for C7's universal part at a concrete parsed record. -/
theorem claim_C7_rate_bounds_witness :
    1000 ≤ RateRecord.rate
      { vesselType := "ULTRAMAX", originText := "Continent",
        destinationText := "China", originRegion := "N.EUROPE",
        destinationRegion := "CHINA", rate := 17500,
        rawLine := "Ultramax open Continent to China fixed around $17,500" } ∧
    RateRecord.rate
      { vesselType := "ULTRAMAX", originText := "Continent",
        destinationText := "China", originRegion := "N.EUROPE",
        destinationRegion := "CHINA", rate := 17500,
        rawLine := "Ultramax open Continent to China fixed around $17,500" } ≤ 200000 :=
  claim_C7_rate_bounds.1 "• Ultramax open Continent to China fixed around $17,500"
    { vesselType := "ULTRAMAX", originText := "Continent",
      destinationText := "China", originRegion := "N.EUROPE",
      destinationRegion := "CHINA", rate := 17500,
      rawLine := "Ultramax open Continent to China fixed around $17,500" }
    (by decide)

/- ═════════ First-per-key dedup lemmas ═════════ -/

theorem dedupFirstByMem {α : Type} (key : α → String) :
    ∀ (seen : List String) (l : List α) (x : α),
      x ∈ dedupFirstBy key seen l → x ∈ l ∧ key x ∉ seen := by
  intro seen l
  induction l generalizing seen with
  | nil => intro x hx; simp [dedupFirstBy] at hx
  | cons a as ih =>
    intro x hx
    by_cases ha : key a ∈ seen
    · simp only [dedupFirstBy, if_pos ha] at hx
      obtain ⟨h1, h2⟩ := ih seen x hx
      exact ⟨List.mem_cons_of_mem _ h1, h2⟩
    · simp only [dedupFirstBy, if_neg ha] at hx
      rcases List.mem_cons.mp hx with rfl | hx'
      · exact ⟨List.mem_cons_self _ _, ha⟩
      · obtain ⟨h1, h2⟩ := ih (key a :: seen) x hx'
        exact ⟨List.mem_cons_of_mem _ h1,
               fun hk => h2 (List.mem_cons_of_mem _ hk)⟩

theorem dedupFirstByPairwise {α : Type} (key : α → String) (R : α → α → Prop) :
    ∀ (seen : List String) (l : List α), l.Pairwise R →
      ∀ x ∈ dedupFirstBy key seen l, ∀ y ∈ l, key y = key x → y = x ∨ R x y := by
  intro seen l
  induction l generalizing seen with
  | nil => intro _ x hx; simp [dedupFirstBy] at hx
  | cons a as ih =>
    intro hp x hx y hy hkey
    obtain ⟨hpa, hpas⟩ := List.pairwise_cons.mp hp
    by_cases ha : key a ∈ seen
    · simp only [dedupFirstBy, if_pos ha] at hx
      rcases List.mem_cons.mp hy with rfl | hy'
      · obtain ⟨-, hnx⟩ := dedupFirstByMem key seen as x hx
        exact absurd (hkey ▸ ha) hnx
      · exact ih seen hpas x hx y hy' hkey
    · simp only [dedupFirstBy, if_neg ha] at hx
      rcases List.mem_cons.mp hx with rfl | hx'
      · rcases List.mem_cons.mp hy with rfl | hy'
        · exact Or.inl rfl
        · exact Or.inr (hpa y hy')
      · obtain ⟨-, hnx⟩ := dedupFirstByMem key (key a :: seen) as x hx'
        rcases List.mem_cons.mp hy with rfl | hy'
        · exact absurd (hkey ▸ List.mem_cons_self (key y) seen) hnx
        · exact ih (key a :: seen) hpas x hx' y hy' hkey

theorem dedupFirstByFilter {α : Type} (key : α → String) (k : String) :
    ∀ (seen : List String) (l : List α),
      (dedupFirstBy key seen l).filter (fun x => key x == k) =
        if k ∈ seen then [] else (l.filter (fun x => key x == k)).take 1 := by
  intro seen l
  induction l generalizing seen with
  | nil => simp [dedupFirstBy]
  | cons a as ih =>
    by_cases hak : key a = k
    · subst hak
      by_cases hk : key a ∈ seen
      · rw [if_pos hk]
        have hdrop : dedupFirstBy key seen (a :: as) = dedupFirstBy key seen as := by
          simp [dedupFirstBy, hk]
        rw [hdrop, ih seen, if_pos hk]
      · rw [if_neg hk]
        have hstep : dedupFirstBy key seen (a :: as) =
            a :: dedupFirstBy key (key a :: seen) as := by
          simp [dedupFirstBy, hk]
        rw [hstep, List.filter_cons, List.filter_cons]
        simp only [beq_self_eq_true, if_true]
        rw [ih (key a :: seen), if_pos (List.mem_cons_self _ _)]
        rfl
    · have hb : (key a == k) = false := beq_eq_false_iff_ne.mpr hak
      have hcond : ¬((key a == k) = true) := by simp [hb]
      have hiff : (k ∈ key a :: seen) ↔ (k ∈ seen) := by
        constructor
        · intro h
          rcases List.mem_cons.mp h with h' | h'
          · exact absurd h'.symm hak
          · exact h'
        · exact List.mem_cons_of_mem _
      by_cases hk2 : key a ∈ seen
      · have hdrop : dedupFirstBy key seen (a :: as) = dedupFirstBy key seen as := by
          simp [dedupFirstBy, hk2]
        rw [hdrop, ih seen, List.filter_cons, if_neg hcond]
      · have hstep : dedupFirstBy key seen (a :: as) =
            a :: dedupFirstBy key (key a :: seen) as := by
          simp [dedupFirstBy, hk2]
        rw [hstep, List.filter_cons, List.filter_cons, if_neg hcond,
            if_neg hcond, ih (key a :: seen)]
        by_cases hk3 : k ∈ seen
        · rw [if_pos (hiff.mpr hk3), if_pos hk3]
        · rw [if_neg (fun h => hk3 (hiff.mp h)), if_neg hk3]

theorem hasPrefixSingleChar (c g : Char) (cs : List Char) :
    hasPrefixL (c :: cs) [g] = decide (c = g) := by
  cases cs <;> simp [hasPrefixL]

theorem lengthTakeOneFilter {α : Type} (p : α → Bool) (l : List α) :
    ((l.filter p).take 1).length = if l.any p then 1 else 0 := by
  induction l with
  | nil => rfl
  | cons a as ih =>
    by_cases hp : p a = true
    · simp [List.filter_cons, hp]
    · simp [List.filter_cons, hp, ih]

/-- C2: on a row list sorted by scrapedDate descending (the storage
query order), the aggregation stage keeps exactly one AggregatedRate per
key occurring in the input — zero for absent keys — and each kept entry
is the aging of an input row at least as recent as every other row with
its key. -/
theorem claim_C2_aggregate_most_recent (rows : List DbRow) (todayD : Int)
    (h : sortedDesc rows) :
    (∀ k : String, (aggregateRates todayD rows).countP (fun a => aggKey a == k) =
        if rows.any (fun r => rowKey r == k) then 1 else 0) ∧
    (∀ a ∈ aggregateRates todayD rows, ∃ r ∈ rows, a = mkAgg todayD r ∧
        ∀ r' ∈ rows, rowKey r' = rowKey r → r'.scraped_date ≤ r.scraped_date) := by
  constructor
  · intro k
    unfold aggregateRates
    rw [List.countP_map]
    have hcmp : ((fun a => aggKey a == k) ∘ mkAgg todayD) =
        (fun r : DbRow => rowKey r == k) := rfl
    rw [hcmp, List.countP_eq_length_filter, dedupFirstByFilter rowKey k [] rows]
    simp only [List.not_mem_nil, if_false]
    exact lengthTakeOneFilter _ rows
  · intro a ha
    unfold aggregateRates at ha
    obtain ⟨r, hr, rfl⟩ := List.mem_map.mp ha
    obtain ⟨hrm, -⟩ := dedupFirstByMem rowKey [] rows r hr
    refine ⟨r, hrm, rfl, fun r' hr' hk => ?_⟩
    rcases dedupFirstByPairwise rowKey
        (fun x y => y.scraped_date ≤ x.scraped_date) [] rows h r hr r' hr' hk with
      rfl | hle
    · exact le_refl _
    · exact hle

/-- Witness for C2: two rows with one key, dated 100 and 90; at
asOf = 103 only the recent row survives, aged 3 days, hence tier 1. -/
theorem claim_C2_aggregate_most_recent_witness :
    sortedDesc [rowRecent, rowStale] ∧
    (aggregateRates 103 [rowRecent, rowStale]).countP
      (fun a => aggKey a == "CAPESIZE|N.EUROPE|CHINA") = 1 ∧
    aggregateRates 103 [rowRecent, rowStale] = [mkAgg 103 rowRecent] ∧
    (mkAgg 103 rowRecent).tier = 1 ∧ (mkAgg 103 rowRecent).daysOld = 3 :=
  ⟨by decide,
   ((claim_C2_aggregate_most_recent [rowRecent, rowStale] 103 (by decide)).1
     "CAPESIZE|N.EUROPE|CHINA").trans (by decide),
   by decide, by decide, by decide⟩

/- ═════════ Page-extraction dedup (C9, C10) ═════════ -/

theorem parseRatesAuxEqDedup :
    ∀ (lines : List (List Char)) (seen : List String),
      parseRatesAux seen lines =
        dedupFirstBy recKey seen (lines.filterMap surviveLine) := by
  intro lines
  induction lines with
  | nil => intro seen; rfl
  | cons line ls ih =>
    intro seen
    by_cases h1 : (hasPrefixL (jsTrim line) ['•'] || hasPrefixL (jsTrim line) ['·']) = true
    · by_cases h2 : containsL (lowerL (jsTrim line)) "fixed around".data = true
      · cases h3 : parseLineL (jsTrim line) with
        | none =>
          simp [parseRatesAux, surviveLine, h1, h2, h3, List.filterMap_cons, ih]
        | some p =>
          by_cases h4 : recKey p ∈ seen
          · simp [parseRatesAux, surviveLine, h1, h2, h3, h4,
                  List.filterMap_cons, ih, dedupFirstBy]
          · simp [parseRatesAux, surviveLine, h1, h2, h3, h4,
                  List.filterMap_cons, ih, dedupFirstBy]
      · simp [parseRatesAux, surviveLine, h1, h2, List.filterMap_cons, ih]
    · simp [parseRatesAux, surviveLine, h1, List.filterMap_cons, ih]

/-- C9: within one extraction pass, `parseRates` is exactly the
first-per-key dedup of the surviving page-order records: for every key,
only the first surviving record with that key appears, every later
duplicate is dropped. -/
theorem claim_C9_first_per_key (html : String) (k : String) :
    parseRates html = dedupFirstBy recKey [] (survivors html.data) ∧
    (parseRates html).filter (fun p => recKey p == k) =
      ((survivors html.data).filter (fun p => recKey p == k)).take 1 := by
  have hmain : parseRates html = dedupFirstBy recKey [] (survivors html.data) :=
    parseRatesAuxEqDedup (splitNl html.data) []
  refine ⟨hmain, ?_⟩
  rw [hmain, dedupFirstByFilter recKey k [] (survivors html.data)]
  simp only [List.not_mem_nil, if_false]

/-- C10: the page filter admits only `'•'` and `'·'` bullets — a line
whose trimmed content starts with `'-'` or `'*'` contributes nothing to
the extraction result wherever it sits in the page, even though
`parseLine` itself strips such a marker and can parse the line (the
concrete conjuncts exhibit this on a dash line that parses on its own
yet yields an empty extraction). -/
theorem claim_C10_bullet_glyphs_only :
    (∀ (pre post : List (List Char)) (line : List Char) (seen : List String),
        hasPrefixL (jsTrim line) ['-'] = true ∨ hasPrefixL (jsTrim line) ['*'] = true →
        parseRatesAux seen (pre ++ line :: post) = parseRatesAux seen (pre ++ post)) ∧
    (parseLine "- Ultramax open Continent to China fixed around $17,500").isSome = true ∧
    parseRates "- Ultramax open Continent to China fixed around $17,500" = [] := by
  refine ⟨?_, by decide, by decide⟩
  intro pre
  induction pre with
  | nil =>
    intro post line seen hline
    have hglyph : (hasPrefixL (jsTrim line) ['•'] || hasPrefixL (jsTrim line) ['·']) = false := by
      cases ht : jsTrim line with
      | nil => rcases hline with h | h <;> rw [ht] at h <;> simp [hasPrefixL] at h
      | cons c cs =>
        rcases hline with h | h <;> rw [ht, hasPrefixSingleChar] at h <;>
          have hc := of_decide_eq_true h <;> subst hc <;>
          rw [hasPrefixSingleChar, hasPrefixSingleChar] <;> decide
    simp [parseRatesAux, hglyph]
  | cons q qs ih =>
    intro post line seen hline
    have ihh : ∀ s : List String,
        parseRatesAux s (qs ++ line :: post) = parseRatesAux s (qs ++ post) :=
      fun s => ih post line s hline
    by_cases h1 : (hasPrefixL (jsTrim q) ['•'] || hasPrefixL (jsTrim q) ['·']) = true
    · by_cases h2 : containsL (lowerL (jsTrim q)) "fixed around".data = true
      · cases h3 : parseLineL (jsTrim q) with
        | none => simp [parseRatesAux, h1, h2, h3, ihh]
        | some p =>
          by_cases h4 : recKey p ∈ seen
          · simp [parseRatesAux, h1, h2, h3, h4, ihh]
          · simp [parseRatesAux, h1, h2, h3, h4, ihh]
      · simp [parseRatesAux, h1, h2, ihh]
    · simp [parseRatesAux, h1, ihh]

/-- Witness for C10's universal part: a dash-marked rate line inserted
into a one-line page changes nothing. -/
theorem claim_C10_bullet_glyphs_only_witness :
    parseRatesAux [] ([['h', 'i']] ++
        "- Ultramax open Continent to China fixed around $17,500".data :: []) =
      parseRatesAux [] ([['h', 'i']] ++ []) :=
  claim_C10_bullet_glyphs_only.1 [['h', 'i']] []
    "- Ultramax open Continent to China fixed around $17,500".data []
    (Or.inl (by decide))

end DryFreight
